import Mathlib

/-!
Verification of the client-side analytics / theme / animation module of the
Link Pro page script (`script-clean.js`), as a shallow embedding in Lean 4.

Modelling conventions:
* JS objects used as record payloads become association lists
  `List (String × JVal)` with first-match lookup; property assignment and
  object spread (`{...data, k: v}`) become `setKey`, which replaces the first
  binding of the key or appends a fresh one (JS objects have unique keys, so
  this matches JS semantics).
* `localStorage` for the analytics key becomes `Option StoredVal`:
  `none` is an absent key (`getItem` returns `null`), `StoredVal.parsable es`
  is a stored JSON array that parses back to `es`, and `StoredVal.corrupt` is
  a stored value on which `JSON.parse` throws.
* Fallible browser calls (`localStorage.setItem`, `JSON.parse`) are embedded
  as `Except`-returning functions; the `try/catch` blocks of the source
  become a `match` on the `Except`, so the wrapped functions are total
  (they never propagate an exception to the caller).
* Environment-supplied values (`Date.now()`, `window.location.href`,
  generated ids, success of a storage write) are passed as explicit
  parameters.
* JS numbers are embedded as `Int` (timestamps, counters) or `ℚ`
  (arithmetic with division); `Math.round` is `jsRound q = ⌊q + 1/2⌋`,
  which is exactly JS rounding (half goes toward +∞). Event payload values
  are modelled as typed numbers/strings (`JVal`); payloads whose `duration`
  is non-numeric (JS `NaN` poisoning) are outside the model, and the
  corresponding theorems assume numeric durations where it matters.
-/

namespace LinkPro

/-- A JS scalar value appearing in an event payload. -/
inductive JVal : Type where
  | vNum (n : Int)
  | vStr (s : String)
deriving DecidableEq

/-- JS object property read (`o[k]`): first binding of the key, if any. -/
def getKey {α : Type} : List (String × α) → String → Option α
  | [], _ => none
  | (k0, v0) :: rest, k => if k0 = k then some v0 else getKey rest k

/-- JS object property write (`o[k] = v`): replace the first binding of the
key, or append a fresh binding (insertion order, as JS does). -/
def setKey {α : Type} : List (String × α) → String → α → List (String × α)
  | [], k, v => [(k, v)]
  | (k0, v0) :: rest, k, v =>
    if k0 = k then (k, v) :: rest else (k0, v0) :: setKey rest k v

/-- JS coercion of a property value to an object key, as in
`categories[click.data.category]`: a missing property (`undefined`) becomes
the key `"undefined"`, strings are used as-is, numbers are stringified. -/
def jsKeyOf : Option JVal → String
  | none => "undefined"
  | some (JVal.vStr s) => s
  | some (JVal.vNum n) => toString n

/-- One analytics event, as built by `Analytics.trackEvent`. -/
structure Event : Type where
  id : String
  sessionId : String
  name : String
  data : List (String × JVal)
deriving DecidableEq

/-- The event object constructed by `Analytics.trackEvent`:
`{ id, sessionId, name, data: { ...data, timestamp: Date.now(), url: window.location.href } }`.
The spread copies the caller-supplied fields first; the explicit `timestamp` and
`url` assignments then overwrite any caller-supplied binding of those keys. -/
def mkEvent (id sessionId name : String) (data : List (String × JVal))
    (ts : Int) (url : String) : Event :=
  { id := id, sessionId := sessionId, name := name
    data := setKey (setKey data "timestamp" (JVal.vNum ts)) "url" (JVal.vStr url) }

/-- A raw value stored under the analytics key: either a JSON array that
parses back to an event list, or a corrupt string on which `JSON.parse`
throws. -/
inductive StoredVal : Type where
  | parsable (events : List Event)
  | corrupt
deriving DecidableEq

/-- The `localStorage` cell for `APP_CONFIG.analytics.trackingKey`;
`none` means the key is absent (`getItem` returns `null`). -/
abbrev Storage := Option StoredVal

/-- `JSON.parse` on a stored raw value: succeeds on a parsable array,
throws (modelled as `Except.error`) on a corrupt one. -/
def jsonParse : StoredVal → Except String (List Event)
  | StoredVal.parsable es => Except.ok es
  | StoredVal.corrupt => Except.error "SyntaxError"

/-- `Analytics.loadFromStorage`: read the analytics key; `data ? JSON.parse(data) : []`,
with the whole body in a `try/catch` that returns `[]` on a parse error. -/
def loadFromStorage (storage : Storage) : List Event :=
  match storage with
  | none => []
  | some raw =>
    match jsonParse raw with
    | Except.ok es => es
    | Except.error _ => []

/-- `APP_CONFIG.analytics.enabled` (a constant `true` in the source). -/
def analyticsEnabled : Bool := true

/-- The mutable state of the `Analytics` singleton: session identity,
session start time, the in-memory event sequence, the persisted cell, and
the `console.warn` log (used to observe the swallowed storage failures). -/
structure AState : Type where
  sessionId : String
  startTime : Int
  events : List Event
  storage : Storage
  warnings : List String
deriving DecidableEq

/-- `localStorage.setItem` on the analytics key: the environment decides
whether the write succeeds (`writeOk`); on failure it throws (quota
exceeded / storage unavailable), modelled as `Except.error`. -/
def setItemE (writeOk : Bool) (v : StoredVal) : Except String StoredVal :=
  if writeOk then Except.ok v else Except.error "QuotaExceededError"

/-- `Analytics.saveToStorage`: serialize the whole in-memory sequence and
write it under the fixed key; a throwing write is caught and reduced to a
`console.warn`, leaving the persisted cell unchanged. -/
def saveToStorage (writeOk : Bool) (st : AState) : AState :=
  match setItemE writeOk (StoredVal.parsable st.events) with
  | Except.ok v => { st with storage := some v }
  | Except.error e => { st with warnings := st.warnings ++ [e] }

/-- `Analytics.trackEvent(name, data)`: build the event (with injected
`timestamp` and `url`), push it onto the in-memory sequence, then persist
the whole sequence. Environment inputs (generated id, `Date.now()`,
`location.href`, write success) are explicit parameters. -/
def trackEvent (writeOk : Bool) (id : String) (ts : Int) (url : String)
    (name : String) (data : List (String × JVal)) (st : AState) : AState :=
  if analyticsEnabled then
    let ev := mkEvent id st.sessionId name data ts url
    saveToStorage writeOk { st with events := st.events ++ [ev] }
  else st

/-- `Analytics.trackSessionEnd`: record a `session_end` event whose payload
is `{ duration: Date.now() - this.startTime, eventsCount: this.events.length }`
(the length is read before the new event is appended). -/
def trackSessionEnd (writeOk : Bool) (id : String) (now : Int) (url : String)
    (st : AState) : AState :=
  trackEvent writeOk id now url "session_end"
    [("duration", JVal.vNum (now - st.startTime)),
     ("eventsCount", JVal.vNum (st.events.length : Int))] st

/-- One `trackEvent` invocation together with its environment inputs. -/
structure TrackCall : Type where
  id : String
  ts : Int
  url : String
  writeOk : Bool
  name : String
  data : List (String × JVal)
deriving DecidableEq

/-- A sequence of `trackEvent` calls, applied in order. -/
def runTracks (calls : List TrackCall) (st : AState) : AState :=
  calls.foldl (fun s c => trackEvent c.writeOk c.id c.ts c.url c.name c.data s) st

/-! ### Summarizer (`Analytics.getSummary`, `Analytics.calculateAverageSessionTime`) -/

/-- JS `Math.round q = ⌊q + 1/2⌋` (half rounds toward +∞). -/
def jsRound (q : ℚ) : Int := ⌊q + 1 / 2⌋

/-- The `duration` field of a `session_end` payload, as a rational; payloads
without a numeric `duration` are outside the model (see the header note). -/
def durQ (e : Event) : ℚ :=
  match getKey e.data "duration" with
  | some (JVal.vNum n) => (n : ℚ)
  | _ => 0

/-- Whether a payload carries a numeric binding of a key (well-typedness
side condition used by the average-session-time theorems). -/
def isNumField (data : List (String × JVal)) (k : String) : Bool :=
  match getKey data k with
  | some (JVal.vNum _) => true
  | _ => false

/-- `Analytics.calculateAverageSessionTime(events)`: filter to `session_end`
events; `0` if there are none; otherwise
`Math.round(totalTime / sessions.length / 1000)` where `totalTime` is the
`reduce`-computed sum of the `duration` fields. -/
def calculateAverageSessionTime (events : List Event) : Int :=
  let sessions := events.filter (fun e => e.name == "session_end")
  if sessions.length = 0 then 0
  else
    let totalTime : ℚ := sessions.foldl (fun sum e => sum + durQ e) 0
    jsRound (totalTime / (sessions.length : ℚ) / 1000)

/-- The result record of `Analytics.getSummary`. -/
structure Summary : Type where
  totalEvents : Nat
  totalClicks : Nat
  categories : List (String × Nat)
  averageSessionTime : Int
deriving DecidableEq

/-- The object key a `link_click` event is grouped under: `click.data.category`
coerced to a property key. -/
def categoryOf (e : Event) : String := jsKeyOf (getKey e.data "category")

/-- The body of the `clicks.forEach` loop of `getSummary`:
`categories[category] = (categories[category] || 0) + 1`. -/
def categoriesStep (cats : List (String × Nat)) (e : Event) : List (String × Nat) :=
  setKey cats (categoryOf e) ((getKey cats (categoryOf e)).getD 0 + 1)

/-- `Analytics.getSummary()`: load the persisted log, filter to `link_click`
events, group them by category, and report totals plus the average session
time over the whole loaded log. -/
def getSummary (storage : Storage) : Summary :=
  let events := loadFromStorage storage
  let clicks := events.filter (fun e => e.name == "link_click")
  { totalEvents := events.length
    totalClicks := clicks.length
    categories := clicks.foldl categoriesStep []
    averageSessionTime := calculateAverageSessionTime events }

/-! ### Theme module -/

/-- The three theme states of `Theme.currentTheme`. -/
inductive ThemeName : Type where
  | light
  | dark
  | system
deriving DecidableEq

/-- The string stored in `localStorage` / sent in the `theme_change` payload. -/
def themeToStr : ThemeName → String
  | ThemeName.light => "light"
  | ThemeName.dark => "dark"
  | ThemeName.system => "system"

/-- The effective `data-theme` attribute `Theme.applyTheme` writes:
`system` resolves through the OS `prefers-color-scheme` media query,
explicit themes are applied as-is. -/
def resolveTheme (osDark : Bool) : ThemeName → ThemeName
  | ThemeName.system => if osDark then ThemeName.dark else ThemeName.light
  | t => t

/-- The observable state of the `Theme` singleton: the in-memory
`currentTheme`, the `linkpro_theme` storage cell, the applied `data-theme`
attribute, and the (name, payload) pairs handed to `Analytics.trackEvent`. -/
structure ThemeState : Type where
  currentTheme : ThemeName
  storedTheme : Option ThemeName
  displayed : ThemeName
  emitted : List (String × List (String × JVal))
deriving DecidableEq

/-- `Theme.applyTheme(theme)`: set the `data-theme` attribute to the
resolved theme (the icon update has no bearing on the claims). -/
def applyTheme (osDark : Bool) (theme : ThemeName) (st : ThemeState) : ThemeState :=
  { st with displayed := resolveTheme osDark theme }

/-- The click handler installed by `Theme.setupThemeToggle`:
`currentTheme = currentTheme === "light" ? "dark" : "light"`, then store,
apply, and emit a `theme_change` analytics event carrying the new theme. -/
def themeToggleClick (osDark : Bool) (st : ThemeState) : ThemeState :=
  let next := if st.currentTheme = ThemeName.light then ThemeName.dark else ThemeName.light
  let st1 := { st with currentTheme := next, storedTheme := some next }
  let st2 := applyTheme osDark next st1
  { st2 with
    emitted := st2.emitted ++ [("theme_change", [("theme", JVal.vStr (themeToStr next))])] }

/-- The `prefers-color-scheme` change handler installed by
`Theme.watchSystemTheme`: when the current state is `system`, re-apply
`system` (re-resolving against the new OS preference); otherwise no-op. -/
def systemThemeChange (osDark : Bool) (st : ThemeState) : ThemeState :=
  if st.currentTheme = ThemeName.system then applyTheme osDark ThemeName.system st else st

/-- An externally triggered theme interaction: a toggle click or an OS
color-scheme change, each observing the OS preference at that moment. -/
inductive ThemeAction : Type where
  | toggle (osDark : Bool)
  | osChange (osDark : Bool)
deriving DecidableEq

/-- Dispatch one theme interaction. -/
def themeStep (a : ThemeAction) (st : ThemeState) : ThemeState :=
  match a with
  | ThemeAction.toggle osDark => themeToggleClick osDark st
  | ThemeAction.osChange osDark => systemThemeChange osDark st

/-- Run a sequence of theme interactions in order. -/
def runTheme (acts : List ThemeAction) (st : ThemeState) : ThemeState :=
  acts.foldl (fun s a => themeStep a s) st

/-! ### Counter animation (`Utils.animateNumber`) -/

/-- The per-tick increment of `Utils.animateNumber`:
`increment = target / (duration / 16)` (with the default `duration = 2000`
this is `target / 125`). -/
def animIncrement (target duration : ℚ) : ℚ := target / (duration / 16)

/-- The `current` value after `n` ticks of the interval: each tick does
`current += increment` and clamps to `target` once `current >= target`
(which is also the tick that clears the interval). -/
def animCurrent (target inc : ℚ) : Nat → ℚ
  | 0 => 0
  | n + 1 =>
    let c := animCurrent target inc n + inc
    if target ≤ c then target else c

/-- Whether the interval has been cleared within the first `n` ticks
(the `clearInterval` branch has run). -/
def animCleared (target inc : ℚ) : Nat → Bool
  | 0 => false
  | n + 1 => animCleared target inc n || decide (target ≤ animCurrent target inc n + inc)

/-- The value rendered on tick `n ≥ 1`:
`element.textContent = Math.floor(current)`. -/
def animDisplayed (target inc : ℚ) (n : Nat) : Int := ⌊animCurrent target inc n⌋

/-- The event a `TrackCall` turns into, given the session id in force. -/
def mkEventOf (sessionId : String) (c : TrackCall) : Event :=
  mkEvent c.id sessionId c.name c.data c.ts c.url

/-! ### Helper lemmas on the JS-object model -/

theorem getKey_setKey_self {α : Type} (o : List (String × α)) (k : String) (v : α) :
    getKey (setKey o k v) k = some v := by
  induction o with
  | nil => simp [setKey, getKey]
  | cons p rest ih =>
    obtain ⟨k0, v0⟩ := p
    by_cases h : k0 = k
    · simp [setKey, getKey, h]
    · simp [setKey, getKey, h, ih]

theorem getKey_setKey_ne {α : Type} (o : List (String × α)) (k k2 : String) (v : α)
    (h : k ≠ k2) : getKey (setKey o k v) k2 = getKey o k2 := by
  induction o with
  | nil => simp [setKey, getKey, h]
  | cons p rest ih =>
    obtain ⟨k0, v0⟩ := p
    by_cases h0 : k0 = k
    · subst h0
      simp [setKey, getKey, h]
    · simp [setKey, getKey, h0, ih]

/-! ### Helper lemmas on the analytics state machine -/

theorem trackEvent_events (w : Bool) (id : String) (ts : Int) (url : String)
    (name : String) (data : List (String × JVal)) (st : AState) :
    (trackEvent w id ts url name data st).events
      = st.events ++ [mkEvent id st.sessionId name data ts url] := by
  cases w <;> rfl

theorem trackEvent_sessionId (w : Bool) (id : String) (ts : Int) (url : String)
    (name : String) (data : List (String × JVal)) (st : AState) :
    (trackEvent w id ts url name data st).sessionId = st.sessionId := by
  cases w <;> rfl

theorem trackEvent_startTime (w : Bool) (id : String) (ts : Int) (url : String)
    (name : String) (data : List (String × JVal)) (st : AState) :
    (trackEvent w id ts url name data st).startTime = st.startTime := by
  cases w <;> rfl

theorem runTracks_events (calls : List TrackCall) (st : AState) :
    (runTracks calls st).events = st.events ++ calls.map (mkEventOf st.sessionId) := by
  induction calls generalizing st with
  | nil => simp [runTracks]
  | cons c rest ih =>
    have h1 : runTracks (c :: rest) st
        = runTracks rest (trackEvent c.writeOk c.id c.ts c.url c.name c.data st) := rfl
    rw [h1, ih, trackEvent_events, trackEvent_sessionId]
    simp [mkEventOf]

theorem runTracks_sessionId (calls : List TrackCall) (st : AState) :
    (runTracks calls st).sessionId = st.sessionId := by
  induction calls generalizing st with
  | nil => rfl
  | cons c rest ih =>
    have h1 : runTracks (c :: rest) st
        = runTracks rest (trackEvent c.writeOk c.id c.ts c.url c.name c.data st) := rfl
    rw [h1, ih, trackEvent_sessionId]

theorem runTracks_startTime (calls : List TrackCall) (st : AState) :
    (runTracks calls st).startTime = st.startTime := by
  induction calls generalizing st with
  | nil => rfl
  | cons c rest ih =>
    have h1 : runTracks (c :: rest) st
        = runTracks rest (trackEvent c.writeOk c.id c.ts c.url c.name c.data st) := rfl
    rw [h1, ih, trackEvent_startTime]

theorem runTracks_storage_all_ok (calls : List TrackCall) (st : AState)
    (hw : ∀ c ∈ calls, c.writeOk = true) (hne : calls ≠ []) :
    (runTracks calls st).storage
      = some (StoredVal.parsable (runTracks calls st).events) := by
  induction calls generalizing st with
  | nil => exact absurd rfl hne
  | cons c rest ih =>
    have hc : c.writeOk = true := hw c (List.mem_cons_self _ _)
    have h1 : runTracks (c :: rest) st
        = runTracks rest (trackEvent c.writeOk c.id c.ts c.url c.name c.data st) := rfl
    rcases rest with _ | ⟨c2, rest2⟩
    · rw [h1]
      show (trackEvent c.writeOk c.id c.ts c.url c.name c.data st).storage = _
      rw [hc]
      rfl
    · rw [h1]
      exact ih _ (fun d hd => hw d (List.mem_cons_of_mem _ hd)) (by simp)

theorem filter_name_nil (sessionId target : String) (calls : List TrackCall)
    (h : ∀ c ∈ calls, c.name ≠ target) :
    (calls.map (mkEventOf sessionId)).filter (fun e => e.name == target) = [] := by
  induction calls with
  | nil => rfl
  | cons c rest ih =>
    have hc : ((mkEventOf sessionId c).name == target) = false := by
      simp only [mkEventOf, mkEvent, beq_eq_false_iff_ne, ne_eq]
      exact h c (List.mem_cons_self _ _)
    simp only [List.map_cons, List.filter_cons, hc, Bool.false_eq_true, if_false]
    exact ih (fun d hd => h d (List.mem_cons_of_mem _ hd))

/-! ### Helper lemmas on the summarizer -/

theorem getD_foldl_categoriesStep (clicks : List Event) (cats : List (String × Nat))
    (k : String) :
    (getKey (clicks.foldl categoriesStep cats) k).getD 0
      = (getKey cats k).getD 0 + (clicks.filter (fun e => categoryOf e == k)).length := by
  induction clicks generalizing cats with
  | nil => simp
  | cons c rest ih =>
    have h1 : (c :: rest).foldl categoriesStep cats
        = rest.foldl categoriesStep (categoriesStep cats c) := rfl
    rw [h1, ih]
    by_cases h : categoryOf c = k
    · subst h
      simp only [categoriesStep, getKey_setKey_self, Option.getD_some, List.filter_cons,
        beq_self_eq_true, if_true, List.length_cons]
      omega
    · have hne : (categoryOf c == k) = false := by
        simp only [beq_eq_false_iff_ne, ne_eq]
        exact h
      simp only [categoriesStep, List.filter_cons, hne, Bool.false_eq_true, if_false]
      rw [getKey_setKey_ne _ _ _ _ h]

theorem foldl_add_durQ (l : List Event) (a : ℚ) :
    l.foldl (fun sum e => sum + durQ e) a = a + (l.map durQ).sum := by
  induction l generalizing a with
  | nil => simp
  | cons e rest ih =>
    have h1 : (e :: rest).foldl (fun sum e => sum + durQ e) a
        = rest.foldl (fun sum e => sum + durQ e) (a + durQ e) := rfl
    rw [h1, ih]
    simp [List.map_cons, List.sum_cons]
    ring

/-! ### Helper lemmas on the theme state machine -/

theorem themeToggleClick_not_system (osDark : Bool) (st : ThemeState) :
    (themeToggleClick osDark st).currentTheme ≠ ThemeName.system := by
  by_cases h : st.currentTheme = ThemeName.light <;>
    simp [themeToggleClick, applyTheme, h]

theorem systemThemeChange_id (osDark : Bool) (st : ThemeState)
    (h : st.currentTheme ≠ ThemeName.system) : systemThemeChange osDark st = st := by
  simp [systemThemeChange, h]

theorem themeStep_not_system (a : ThemeAction) (st : ThemeState)
    (h : st.currentTheme ≠ ThemeName.system) :
    (themeStep a st).currentTheme ≠ ThemeName.system := by
  cases a with
  | toggle osDark => exact themeToggleClick_not_system osDark st
  | osChange osDark =>
    show (systemThemeChange osDark st).currentTheme ≠ ThemeName.system
    rw [systemThemeChange_id osDark st h]
    exact h

theorem runTheme_not_system (acts : List ThemeAction) (st : ThemeState)
    (h : st.currentTheme ≠ ThemeName.system) :
    (runTheme acts st).currentTheme ≠ ThemeName.system := by
  induction acts generalizing st with
  | nil => exact h
  | cons a rest ih => exact ih (themeStep a st) (themeStep_not_system a st h)

/-! ### Helper lemmas on the counter animation -/

theorem animCurrent_le (target inc : ℚ) (h : 0 ≤ target) (n : Nat) :
    animCurrent target inc n ≤ target := by
  induction n with
  | zero => simpa [animCurrent] using h
  | succ n ih =>
    rw [animCurrent]
    by_cases hc : target ≤ animCurrent target inc n + inc
    · simp [hc]
    · simp only [if_neg hc]
      linarith

theorem animCurrent_linear (target : ℚ) (ht : 0 < target) (n : Nat) (hn : n ≤ 124) :
    animCurrent target (target / 125) n = n * (target / 125) := by
  induction n with
  | zero => simp [animCurrent]
  | succ n ih =>
    have hn2 : n ≤ 124 := Nat.le_of_succ_le hn
    have h1 : ((n : ℚ) + 1) ≤ 124 := by exact_mod_cast hn
    have hpos : 0 < target / 125 := by positivity
    have hlt : (n : ℚ) * (target / 125) + target / 125 < target := by
      nlinarith [mul_nonneg (sub_nonneg.mpr h1) hpos.le]
    rw [animCurrent, ih hn2, if_neg (by linarith)]
    push_cast
    ring

/-! ### Claim theorems -/

/-- C7: `loadFromStorage` returns the deserialized full event sequence when
the stored value parses, and returns an empty sequence — without raising
(it is a total function; the parse error is consumed by the `catch`) —
when the storage key is absent or the stored value fails to parse. -/
theorem loadFromStorage_total_behavior :
    (∀ es : List Event, loadFromStorage (some (StoredVal.parsable es)) = es)
    ∧ loadFromStorage none = []
    ∧ loadFromStorage (some StoredVal.corrupt) = [] :=
  ⟨fun _ => rfl, rfl, rfl⟩

/-- C2: `getSummary` on an empty persisted log (whether the key holds an
empty array or is absent) returns zero total events, zero clicks, an empty
category mapping, and an average session duration of 0; the zero-sessions
guard of `calculateAverageSessionTime` avoids the division. -/
theorem getSummary_empty_log :
    getSummary (some (StoredVal.parsable []))
      = { totalEvents := 0, totalClicks := 0, categories := [], averageSessionTime := 0 }
    ∧ getSummary none
      = { totalEvents := 0, totalClicks := 0, categories := [], averageSessionTime := 0 }
    ∧ calculateAverageSessionTime [] = 0 :=
  ⟨rfl, rfl, rfl⟩

/-- C6: `trackEvent` never raises to its caller (it is a total function:
the throwing `setItem` is consumed by `saveToStorage`); when the storage
write fails, the in-memory sequence still receives the appended event, the
persisted cell is left unchanged (stale), and a warning is logged. -/
theorem trackEvent_write_failure_swallowed (id : String) (ts : Int) (url : String)
    (name : String) (data : List (String × JVal)) (st : AState) :
    (trackEvent false id ts url name data st).events
        = st.events ++ [mkEvent id st.sessionId name data ts url]
    ∧ (trackEvent false id ts url name data st).storage = st.storage
    ∧ (trackEvent false id ts url name data st).warnings
        = st.warnings ++ ["QuotaExceededError"] :=
  ⟨rfl, rfl, rfl⟩

/-- C10: the `timestamp` and `url` fields injected by `trackEvent` overwrite
any caller-supplied binding of those keys: looking them up in the stored
payload always yields the capture-time values, for every caller payload —
in particular for a payload that carries its own `url` and `timestamp`
(as the automatic `page_view` event does with `url`). -/
theorem trackEvent_injected_fields_override (id sessionId name : String)
    (data : List (String × JVal)) (ts : Int) (url : String) :
    (getKey (mkEvent id sessionId name data ts url).data "timestamp"
        = some (JVal.vNum ts)
      ∧ getKey (mkEvent id sessionId name data ts url).data "url"
        = some (JVal.vStr url))
    ∧ getKey (mkEvent "id1" "s1" "page_view"
          [("url", JVal.vStr "callerUrl"), ("timestamp", JVal.vNum 1)] 5 "realUrl").data
        "url" = some (JVal.vStr "realUrl")
    ∧ getKey (mkEvent "id1" "s1" "page_view"
          [("url", JVal.vStr "callerUrl"), ("timestamp", JVal.vNum 1)] 5 "realUrl").data
        "timestamp" = some (JVal.vNum 5) := by
  refine ⟨⟨?_, ?_⟩, by decide, by decide⟩
  · show getKey (setKey (setKey data "timestamp" (JVal.vNum ts)) "url" (JVal.vStr url))
        "timestamp" = some (JVal.vNum ts)
    rw [getKey_setKey_ne _ _ _ _ (by decide)]
    exact getKey_setKey_self _ _ _
  · exact getKey_setKey_self _ _ _

/-- C1: for every sequence of `trackEvent` calls within one session (the
in-memory sequence starts empty at initialization) in which every storage
write succeeds, the persisted log after the last call holds exactly the
events of those calls, in call order, each carrying the session id
generated at initialization. -/
theorem persisted_log_after_n_calls (calls : List TrackCall) (st0 : AState)
    (hinit : st0.events = [])
    (hw : ∀ c ∈ calls, c.writeOk = true)
    (hne : calls ≠ []) :
    (runTracks calls st0).events = calls.map (mkEventOf st0.sessionId)
    ∧ (runTracks calls st0).events.length = calls.length
    ∧ (runTracks calls st0).storage
        = some (StoredVal.parsable (calls.map (mkEventOf st0.sessionId)))
    ∧ ∀ e ∈ (runTracks calls st0).events, e.sessionId = st0.sessionId := by
  have hev : (runTracks calls st0).events = calls.map (mkEventOf st0.sessionId) := by
    rw [runTracks_events, hinit]
    simp
  refine ⟨hev, by rw [hev]; simp, ?_, ?_⟩
  · rw [runTracks_storage_all_ok calls st0 hw hne, hev]
  · intro e he
    rw [hev] at he
    obtain ⟨c, _, rfl⟩ := List.mem_map.1 he
    rfl

/-- Witness for C1: two successful calls from a fresh session leave a
persisted log of exactly their two events, in order, under session id
`sess`. -/
theorem persisted_log_after_n_calls_witness :
    (runTracks
        [⟨"id1", 1, "u1", true, "page_view", []⟩,
         ⟨"id2", 2, "u2", true, "link_click", [("category", JVal.vStr "music")]⟩]
        ⟨"sess", 0, [], none, []⟩).storage
      = some (StoredVal.parsable
          ([⟨"id1", 1, "u1", true, "page_view", []⟩,
            ⟨"id2", 2, "u2", true, "link_click", [("category", JVal.vStr "music")]⟩].map
            (mkEventOf "sess"))) :=
  (persisted_log_after_n_calls _ _ rfl (by decide) (by decide)).2.2.1

/-- C9: in a session trace consisting of the tracked events of the page
(none of which is named `session_end`) followed by the single unload
dispatch of the session, the handler appends exactly one `session_end`
event; it is the last event of the in-memory sequence at that moment, and
its payload carries `duration = now - startTime` and `eventsCount` equal to
the size of the in-memory sequence when the handler fired. -/
theorem session_end_fires_once_and_is_last (calls : List TrackCall) (st0 : AState)
    (hinit : st0.events = [])
    (hnames : ∀ c ∈ calls, c.name ≠ "session_end")
    (w : Bool) (id : String) (now : Int) (url : String) :
    ((trackSessionEnd w id now url (runTracks calls st0)).events.filter
        (fun e => e.name == "session_end")).length = 1
    ∧ (trackSessionEnd w id now url (runTracks calls st0)).events.getLast?
        = some (mkEvent id st0.sessionId "session_end"
            [("duration", JVal.vNum (now - st0.startTime)),
             ("eventsCount", JVal.vNum (calls.length : Int))] now url)
    ∧ getKey (mkEvent id st0.sessionId "session_end"
            [("duration", JVal.vNum (now - st0.startTime)),
             ("eventsCount", JVal.vNum (calls.length : Int))] now url).data "duration"
        = some (JVal.vNum (now - st0.startTime))
    ∧ getKey (mkEvent id st0.sessionId "session_end"
            [("duration", JVal.vNum (now - st0.startTime)),
             ("eventsCount", JVal.vNum (calls.length : Int))] now url).data "eventsCount"
        = some (JVal.vNum (calls.length : Int)) := by
  have hev : (runTracks calls st0).events = calls.map (mkEventOf st0.sessionId) := by
    rw [runTracks_events, hinit]
    simp
  have hlen : (runTracks calls st0).events.length = calls.length := by
    rw [hev, List.length_map]
  have hfin : (trackSessionEnd w id now url (runTracks calls st0)).events
      = (runTracks calls st0).events
        ++ [mkEvent id st0.sessionId "session_end"
            [("duration", JVal.vNum (now - st0.startTime)),
             ("eventsCount", JVal.vNum (calls.length : Int))] now url] := by
    show (trackEvent w id now url "session_end" _ (runTracks calls st0)).events = _
    rw [trackEvent_events, runTracks_sessionId, runTracks_startTime, hlen]
  refine ⟨?_, ?_, ?_, ?_⟩
  · rw [hfin, List.filter_append, hev, filter_name_nil _ _ _ hnames]
    rfl
  · rw [hfin, List.getLast?_concat]
  · show getKey (setKey (setKey
        [("duration", JVal.vNum (now - st0.startTime)),
         ("eventsCount", JVal.vNum (calls.length : Int))]
        "timestamp" (JVal.vNum now)) "url" (JVal.vStr url)) "duration" = _
    rw [getKey_setKey_ne _ _ _ _ (by decide), getKey_setKey_ne _ _ _ _ (by decide)]
    rfl
  · show getKey (setKey (setKey
        [("duration", JVal.vNum (now - st0.startTime)),
         ("eventsCount", JVal.vNum (calls.length : Int))]
        "timestamp" (JVal.vNum now)) "url" (JVal.vStr url)) "eventsCount" = _
    rw [getKey_setKey_ne _ _ _ _ (by decide), getKey_setKey_ne _ _ _ _ (by decide)]
    rfl

/-- Witness for C9: after one tracked `page_view` and the unload dispatch,
the in-memory sequence holds exactly one `session_end` event. -/
theorem session_end_fires_once_and_is_last_witness :
    ((trackSessionEnd true "id9" 10 "u"
        (runTracks [⟨"id1", 1, "u", true, "page_view", []⟩]
          ⟨"sess", 0, [], none, []⟩)).events.filter
      (fun e => e.name == "session_end")).length = 1 :=
  (session_end_fires_once_and_is_last _ _ rfl (by decide) true "id9" 10 "u").1

/-- A concrete persisted log: one `page_view` plus five `link_click` events
whose categories are social, social, music, social, music. -/
def exampleLog : List Event :=
  [{ id := "e0", sessionId := "s", name := "page_view", data := [] },
   { id := "e1", sessionId := "s", name := "link_click",
     data := [("category", JVal.vStr "social")] },
   { id := "e2", sessionId := "s", name := "link_click",
     data := [("category", JVal.vStr "social")] },
   { id := "e3", sessionId := "s", name := "link_click",
     data := [("category", JVal.vStr "music")] },
   { id := "e4", sessionId := "s", name := "link_click",
     data := [("category", JVal.vStr "social")] },
   { id := "e5", sessionId := "s", name := "link_click",
     data := [("category", JVal.vStr "music")] }]

/-- C3: for every persisted log, the category mapping reported by
`getSummary` counts, for each key, exactly the `link_click` events of the
loaded log whose `data.category` groups under that key; in particular, on a
log whose `link_click` categories are social ×3 and music ×2, the mapping
is exactly those two counts. -/
theorem getSummary_groups_clicks_by_category (storage : Storage) (k : String) :
    (getKey (getSummary storage).categories k).getD 0
      = (((loadFromStorage storage).filter (fun e => e.name == "link_click")).filter
          (fun e => categoryOf e == k)).length
    ∧ (getSummary (some (StoredVal.parsable exampleLog))).categories
        = [("social", 3), ("music", 2)]
    ∧ (getSummary (some (StoredVal.parsable exampleLog))).totalClicks = 5 := by
  refine ⟨?_, by decide, by decide⟩
  show (getKey (((loadFromStorage storage).filter
      (fun e => e.name == "link_click")).foldl categoriesStep []) k).getD 0 = _
  rw [getD_foldl_categoriesStep]
  simp [getKey]

/-- C4: for every persisted log whose `session_end` events all carry a
numeric `duration` and that contains at least one of them, the average
session duration reported by `getSummary` is the sum of those durations
divided by the number of `session_end` events, converted to whole seconds
and rounded (JS `Math.round`). -/
theorem averageSessionTime_is_rounded_mean (storage : Storage)
    (hne : (loadFromStorage storage).filter (fun e => e.name == "session_end") ≠ [])
    (hnum : ∀ e ∈ (loadFromStorage storage).filter (fun e => e.name == "session_end"),
        isNumField e.data "duration" = true) :
    (getSummary storage).averageSessionTime
      = jsRound
          ((((loadFromStorage storage).filter (fun e => e.name == "session_end")).map
              durQ).sum
            / (((loadFromStorage storage).filter
                  (fun e => e.name == "session_end")).length : ℚ)
            / 1000) := by
  show calculateAverageSessionTime (loadFromStorage storage) = _
  rw [calculateAverageSessionTime]
  have hlen : ((loadFromStorage storage).filter
      (fun e => e.name == "session_end")).length ≠ 0 := by
    intro h
    exact hne (List.length_eq_zero.mp h)
  rw [if_neg hlen, foldl_add_durQ]
  rw [zero_add]

/-- A one-session log used to witness the average-session-time theorem. -/
def oneSessionLog : List Event :=
  [{ id := "e1", sessionId := "s", name := "session_end",
     data := [("duration", JVal.vNum 2500)] }]

/-- Witness for C4: a log holding a single `session_end` event of duration
2500 ms averages to 3 seconds (2.5 s rounded up). -/
theorem averageSessionTime_is_rounded_mean_witness :
    (getSummary (some (StoredVal.parsable oneSessionLog))).averageSessionTime = 3 :=
  (averageSessionTime_is_rounded_mean (some (StoredVal.parsable oneSessionLog))
      (by decide) (by decide)).trans
    (by norm_num [jsRound, durQ, getKey, List.filter, loadFromStorage, jsonParse,
      oneSessionLog])

/-- C5: from the `system` state, the first toggle always yields the fixed
explicit state `light` — the ternary treats `system` like `dark` —
independent of the OS color-scheme preference, and persists it; no toggle
ever produces the `system` state, and the state stays non-`system` under
any further interaction sequence, so an OS color-scheme change is a no-op
after a toggle; and every explicit toggle emits a `theme_change` event
carrying the new theme. -/
theorem theme_toggle_leaves_system (osDark osDark2 : Bool) (st : ThemeState)
    (h : st.currentTheme = ThemeName.system) :
    ((themeToggleClick osDark st).currentTheme = ThemeName.light
      ∧ (themeToggleClick osDark st).storedTheme = some ThemeName.light
      ∧ (themeToggleClick osDark st).displayed = ThemeName.light)
    ∧ (∀ st2 : ThemeState, ∀ osDark3 : Bool,
        (themeToggleClick osDark3 st2).currentTheme ≠ ThemeName.system)
    ∧ (∀ acts : List ThemeAction,
        (runTheme acts (themeToggleClick osDark st)).currentTheme ≠ ThemeName.system)
    ∧ (∀ st2 : ThemeState, ∀ osDark3 : Bool, st2.currentTheme ≠ ThemeName.system →
        systemThemeChange osDark3 st2 = st2)
    ∧ systemThemeChange osDark2 (themeToggleClick osDark st) = themeToggleClick osDark st
    ∧ (∀ st2 : ThemeState, ∀ osDark3 : Bool,
        (themeToggleClick osDark3 st2).emitted
          = st2.emitted ++ [("theme_change",
              [("theme",
                JVal.vStr (themeToStr (themeToggleClick osDark3 st2).currentTheme))])]) := by
  have hfix : (themeToggleClick osDark st).currentTheme = ThemeName.light
      ∧ (themeToggleClick osDark st).storedTheme = some ThemeName.light
      ∧ (themeToggleClick osDark st).displayed = ThemeName.light := by
    refine ⟨?_, ?_, ?_⟩ <;> simp [themeToggleClick, applyTheme, resolveTheme, h]
  refine ⟨hfix, fun st2 osDark3 => themeToggleClick_not_system osDark3 st2,
    fun acts => runTheme_not_system acts _ (themeToggleClick_not_system osDark st),
    fun st2 osDark3 h2 => systemThemeChange_id osDark3 st2 h2,
    systemThemeChange_id osDark2 _ (themeToggleClick_not_system osDark st),
    fun st2 osDark3 => ?_⟩
  by_cases h2 : st2.currentTheme = ThemeName.light <;>
    simp [themeToggleClick, applyTheme, resolveTheme, h2]

/-- Witness for C5: toggling a concrete `system`-state theme context under
a dark OS preference yields the explicit `light` state. -/
theorem theme_toggle_leaves_system_witness :
    (themeToggleClick true
        { currentTheme := ThemeName.system, storedTheme := none,
          displayed := ThemeName.dark, emitted := [] }).currentTheme
      = ThemeName.light :=
  (theme_toggle_leaves_system true false
      { currentTheme := ThemeName.system, storedTheme := none,
        displayed := ThemeName.dark, emitted := [] } rfl).1.1

/-- C8: for every positive integer target, the counter animation with the
default duration (increment `target / 125`) clears its interval on tick
125 with the current value clamped to exactly the target and the rendered
value exactly the target; the rendered value never exceeds the target at
any tick; and every rendered value is the floor of the (rational) current
value. -/
theorem animateNumber_reaches_target (target : Nat) (ht : 0 < target) :
    animIncrement (target : ℚ) 2000 = (target : ℚ) / 125
    ∧ animCleared (target : ℚ) ((target : ℚ) / 125) 125 = true
    ∧ animCurrent (target : ℚ) ((target : ℚ) / 125) 125 = (target : ℚ)
    ∧ animDisplayed (target : ℚ) ((target : ℚ) / 125) 125 = (target : Int)
    ∧ (∀ n : Nat, animDisplayed (target : ℚ) ((target : ℚ) / 125) n ≤ (target : Int))
    ∧ (∀ n : Nat, animDisplayed (target : ℚ) ((target : ℚ) / 125) n
        = ⌊animCurrent (target : ℚ) ((target : ℚ) / 125) n⌋) := by
  have htq : (0 : ℚ) < (target : ℚ) := by exact_mod_cast ht
  have h124 : animCurrent (target : ℚ) ((target : ℚ) / 125) 124
      = 124 * ((target : ℚ) / 125) :=
    animCurrent_linear (target : ℚ) htq 124 (by norm_num)
  have hstep : (target : ℚ) ≤ animCurrent (target : ℚ) ((target : ℚ) / 125) 124
      + (target : ℚ) / 125 := by
    rw [h124]
    have : (124 : ℚ) * ((target : ℚ) / 125) + (target : ℚ) / 125 = (target : ℚ) := by
      field_simp
      ring
    rw [this]
  have hcur : animCurrent (target : ℚ) ((target : ℚ) / 125) 125 = (target : ℚ) := by
    rw [animCurrent, if_pos hstep]
  refine ⟨by rw [animIncrement]; norm_num, ?_, hcur, ?_, ?_, fun n => rfl⟩
  · rw [animCleared]
    simp [hstep]
  · rw [animDisplayed, hcur]
    exact Int.floor_natCast target
  · intro n
    rw [animDisplayed]
    calc ⌊animCurrent (target : ℚ) ((target : ℚ) / 125) n⌋
        ≤ ⌊(target : ℚ)⌋ :=
          Int.floor_le_floor (animCurrent_le (target : ℚ) ((target : ℚ) / 125) htq.le n)
      _ = (target : Int) := Int.floor_natCast target

/-- Witness for C8: the animation for target 1000 has current value exactly
1000 on tick 125. -/
theorem animateNumber_reaches_target_witness :
    animCurrent ((1000 : Nat) : ℚ) (((1000 : Nat) : ℚ) / 125) 125 = ((1000 : Nat) : ℚ) :=
  (animateNumber_reaches_target 1000 (by norm_num)).2.2.1

end LinkPro
